import Mathlib

/-!
Verification development for the Voice-task-manager backend
(`src/components/backend_api.py`): a shallow embedding of the task data
model, the recurrence calculator, the persistence/cache layer, the
filter engine, task mutation endpoints and bulk import, together with
theorems settling the specification claims.

Dates are modelled as proleptic-Gregorian calendar values (as Python's
`datetime.date`): day-level arithmetic (`timedelta(days=n)`) is iterated
calendar successor, month/year arithmetic follows
`dateutil.relativedelta` (day clamped to the last valid day of the
target month).  Instants (`datetime`) are a date plus a minute-of-day;
comparison is lexicographic, matching Python's field-wise comparison of
timezone-aware UTC datetimes.
-/

namespace TaskManager

/-- A calendar date (proleptic Gregorian), as Python's `datetime.date`. -/
structure Date where
  year : Int
  month : Nat
  day : Nat
deriving DecidableEq, Repr

/-- Gregorian leap-year rule, as Python's `calendar.isleap`. -/
def isLeap (y : Int) : Bool :=
  y % 4 == 0 && (y % 100 != 0 || y % 400 == 0)

/-- Number of days in a month (month given 1–12), as Python's calendar. -/
def daysInMonth (y : Int) (m : Nat) : Nat :=
  if m = 1 then 31
  else if m = 2 then (if isLeap y then 29 else 28)
  else if m = 3 then 31
  else if m = 4 then 30
  else if m = 5 then 31
  else if m = 6 then 30
  else if m = 7 then 31
  else if m = 8 then 31
  else if m = 9 then 30
  else if m = 10 then 31
  else if m = 11 then 30
  else if m = 12 then 31
  else 0

/-- A date is a valid calendar date. -/
def Date.Valid (d : Date) : Prop :=
  1 ≤ d.month ∧ d.month ≤ 12 ∧ 1 ≤ d.day ∧ d.day ≤ daysInMonth d.year d.month

instance (d : Date) : Decidable d.Valid := by
  unfold Date.Valid; infer_instance

/-- Next calendar day: models `date + timedelta(days=1)` on valid dates. -/
def succDay (d : Date) : Date :=
  if d.day < daysInMonth d.year d.month then ⟨d.year, d.month, d.day + 1⟩
  else if d.month < 12 then ⟨d.year, d.month + 1, 1⟩
  else ⟨d.year + 1, 1, 1⟩

/-- Previous calendar day: models `date - timedelta(days=1)` on valid dates. -/
def predDay (d : Date) : Date :=
  if 1 < d.day then ⟨d.year, d.month, d.day - 1⟩
  else if 1 < d.month then ⟨d.year, d.month - 1, daysInMonth d.year (d.month - 1)⟩
  else ⟨d.year - 1, 12, 31⟩

/-- `date + timedelta(days=n)` for `n ≥ 0`: iterated calendar successor. -/
def addDays (d : Date) : Nat → Date
  | 0 => d
  | n + 1 => addDays (succDay d) n

/-- `date + relativedelta(months=n)`: calendar-aware month addition with the
day clamped to the last valid day of the target month, as `dateutil` does. -/
def addMonths (d : Date) (n : Nat) : Date :=
  let total := (d.month - 1) + n
  let y := d.year + (total / 12 : Nat)
  let m := total % 12 + 1
  ⟨y, m, min d.day (daysInMonth y m)⟩

/-- `date + relativedelta(years=n)`: calendar-aware year addition with the
day clamped (Feb 29 → Feb 28 in a non-leap target year), as `dateutil` does. -/
def addYears (d : Date) (n : Nat) : Date :=
  ⟨d.year + n, d.month, min d.day (daysInMonth (d.year + n) d.month)⟩

/-- Days from the start of the year to the start of month `m` (non-leap). -/
def daysBeforeMonth (m : Nat) : Nat :=
  if m = 1 then 0 else if m = 2 then 31 else if m = 3 then 59
  else if m = 4 then 90 else if m = 5 then 120 else if m = 6 then 151
  else if m = 7 then 181 else if m = 8 then 212 else if m = 9 then 243
  else if m = 10 then 273 else if m = 11 then 304 else 334

/-- Python's `date.toordinal`: day number with 0001-01-01 ↦ 1. -/
def toOrdinal (d : Date) : Int :=
  365 * (d.year - 1) + (d.year - 1).fdiv 4 - (d.year - 1).fdiv 100
    + (d.year - 1).fdiv 400
    + daysBeforeMonth d.month
    + (if 2 < d.month ∧ isLeap d.year then 1 else 0)
    + d.day

/-- Python's `date.weekday()`: 0 = Monday … 6 = Sunday. -/
def weekday (d : Date) : Nat :=
  ((toOrdinal d + 6).emod 7).toNat

/-- A timezone-aware instant (UTC): a date plus a minute of the day.
Models `datetime`; comparison is lexicographic like Python's. -/
structure DateTime where
  date : Date
  minute : Nat
deriving DecidableEq, Repr

/-- Lexicographic `<` on dates (Python's `date` comparison). -/
def Date.ltb (a b : Date) : Bool :=
  a.year < b.year ∨ (a.year = b.year ∧ (a.month < b.month ∨
    (a.month = b.month ∧ a.day < b.day)))

/-- Lexicographic `≤` on dates (Python's `date` comparison). -/
def Date.leb (a b : Date) : Bool :=
  a.ltb b || a == b

/-- Lexicographic `<` on instants (Python's `datetime` comparison). -/
def DateTime.ltb (a b : DateTime) : Bool :=
  a.date.ltb b.date || (a.date == b.date && a.minute < b.minute)

/-- Frequency type: one of the four values the validator's regex
`^(daily|weekly|monthly|yearly)$` admits; other strings are
unrepresentable in a validated `Frequency`. -/
inductive FreqType where
  | daily | weekly | monthly | yearly
deriving DecidableEq, Repr

/-- Task recurrence frequency configuration (`Frequency` model). -/
structure Frequency where
  type : FreqType
  interval : Nat := 1
  days_of_week : Option (List Nat) := none
  day_of_month : Option Nat := none
deriving DecidableEq, Repr

/-- `calculate_next_due_date` (backend_api.py lines 156–207), embedded on
the date component; `timedelta`/`relativedelta` with whole days, weeks,
months or years never changes the time of day. -/
def calculate_next_due_date (current_due : DateTime) (frequency : Frequency) :
    DateTime :=
  match frequency.type with
  | .daily => ⟨addDays current_due.date frequency.interval, current_due.minute⟩
  | .weekly =>
    match frequency.days_of_week with
    | some l =>
      if l ≠ [] then
        -- `if frequency.days_of_week:` — non-empty list is truthy
        let current_weekday := weekday current_due.date
        let target_days := List.insertionSort (· ≤ ·) l
        let days_ahead :=
          match target_days.find? (fun day => current_weekday < day) with
          | some next_day => next_day - current_weekday
          | none => (7 - current_weekday) + target_days.headD 0
        ⟨addDays current_due.date days_ahead, current_due.minute⟩
      else
        ⟨addDays current_due.date (7 * frequency.interval), current_due.minute⟩
    | none =>
      ⟨addDays current_due.date (7 * frequency.interval), current_due.minute⟩
  | .monthly =>
    let next_date := addMonths current_due.date frequency.interval
    match frequency.day_of_month with
    | some dom =>
      if dom ≠ 0 then
        -- `next_date.replace(day=dom)` succeeds iff `dom` is a valid day
        if 1 ≤ dom ∧ dom ≤ daysInMonth next_date.year next_date.month then
          ⟨⟨next_date.year, next_date.month, dom⟩, current_due.minute⟩
        else
          -- except branch: last day = (first of next month) - 1 day
          let next_month := addMonths next_date 1
          let last_day := (predDay ⟨next_month.year, next_month.month, 1⟩).day
          ⟨⟨next_date.year, next_date.month, last_day⟩, current_due.minute⟩
      else ⟨next_date, current_due.minute⟩
    | none => ⟨next_date, current_due.minute⟩
  | .yearly =>
    ⟨addYears current_due.date frequency.interval, current_due.minute⟩

/-! ## Description sanitization (`Task.sanitize_description`, lines 81–89)

In pydantic v1 the built-in field constraints declared with
`Field(..., min_length=1, max_length=500)` are checked on the raw input
value before any custom (non-`pre`) validator runs, and the validator's
return value is not re-checked against those constraints. -/

/-- Keep a character iff `ord(char) >= 32 or char in '\n\t'`. -/
def stripControl (l : List Char) : List Char :=
  l.filter (fun c => 32 ≤ c.toNat || c == '\n' || c == '\t')

/-- `str.replace(pat, rep)` on character lists: replace every
non-overlapping occurrence of `pat`, scanning left to right.  The fuel
argument (initialised to the list length) only makes the recursion
structural; it never runs out. -/
def replaceAllAux (pat rep : List Char) : Nat → List Char → List Char
  | _, [] => []
  | 0, l => l
  | fuel + 1, c :: rest =>
    if pat.isPrefixOf (c :: rest) ∧ pat ≠ [] then
      rep ++ replaceAllAux pat rep fuel (rest.drop (pat.length - 1))
    else
      c :: replaceAllAux pat rep fuel rest

/-- `str.replace(pat, rep)` on character lists. -/
def replaceAll (pat rep l : List Char) : List Char :=
  replaceAllAux pat rep l.length l

/-- Python's default `str.strip` whitespace (ASCII part). -/
def isPySpace (c : Char) : Bool :=
  c == ' ' || c == '\n' || c == '\t' || c == '\r' || c == '\x0b' || c == '\x0c'

/-- `str.strip()`: drop whitespace from both ends. -/
def pyStrip (l : List Char) : List Char :=
  ((l.dropWhile isPySpace).reverse.dropWhile isPySpace).reverse

/-- The sanitization computed inside `sanitize_description`: strip control
characters, escape script markers, strip surrounding whitespace. -/
def sanitize_value (v : String) : String :=
  (pyStrip (replaceAll "</script>".toList "&lt;/script&gt;".toList
    (replaceAll "<script".toList "&lt;script".toList
      (stripControl v.toList)))).asString

/-- The `sanitize_description` validator body (lines 81–89): raises only
when the incoming value is empty, then returns the sanitized value. -/
def sanitize_description (v : String) : Except String String :=
  if v = "" then .error "Description cannot be empty"
  else .ok (sanitize_value v)

/-- The full pydantic v1 pipeline for the `description` field:
`min_length`/`max_length` are enforced on the raw value, then the
custom validator runs; its result is not re-checked. -/
def validate_description (raw : String) : Except String String :=
  if raw.length < 1 then .error "ensure this value has at least 1 characters"
  else if 500 < raw.length then .error "ensure this value has at most 500 characters"
  else sanitize_description raw

/-! ## Task data model -/

/-- Task reminder configuration (`Reminder` model, lines 59–64). -/
structure Reminder where
  id : String
  time_before : Nat
  message : Option String := none
  sent : Bool := false
deriving DecidableEq, Repr

/-- Core task model (`Task`, lines 67–79), post-validation. -/
structure Task where
  id : String
  description : String
  category : String := "general"
  due_date : DateTime
  completed : Bool := false
  completed_at : Option DateTime := none
  frequency : Option Frequency := none
  next_due_date : Option DateTime := none
  reminders : List Reminder := []
  created_at : DateTime
  updated_at : DateTime
deriving DecidableEq, Repr

/-! ## Filter engine (`filter_tasks`, lines 293–331) -/

/-- The two values the `due_date` query option may take. -/
inductive DueOpt where
  | today | tomorrow
deriving DecidableEq, Repr

/-- The three values the `status` query option may take. -/
inductive StatusOpt where
  | due | overdue | completed
deriving DecidableEq, Repr

/-- Python's `str.lower()` (ASCII part). -/
def lowerStr (s : String) : String :=
  (s.toList.map Char.toLower).asString

/-- `filter_tasks` (lines 293–331), with `now` — computed once at call
start in the source — passed explicitly.  `today = now.date()`,
`tomorrow = today + timedelta(days=1)`.  The truthiness guards
(`if category:`, `if offset:`, `if limit:`) are kept. -/
def filter_tasks (tasks : List Task) (due_date : Option DueOpt)
    (status : Option StatusOpt) (category : Option String)
    (limit : Option Nat) (offset : Nat) (now : DateTime) : List Task :=
  let today := now.date
  let tomorrow := succDay today
  let f1 : List Task := match due_date with
    | some .today => tasks.filter (fun t => t.due_date.date == today)
    | some .tomorrow => tasks.filter (fun t => t.due_date.date == tomorrow)
    | none => tasks
  let f2 : List Task := match status with
    | some .due => f1.filter (fun t => !t.completed && t.due_date.date.leb today)
    | some .overdue => f1.filter (fun t => !t.completed && t.due_date.ltb now)
    | some .completed => f1.filter (fun t => t.completed)
    | none => f1
  let f3 : List Task := match category with
    | some c => if c ≠ "" then
        f2.filter (fun t => lowerStr t.category == lowerStr c)
      else f2
    | none => f2
  let f4 : List Task := if offset ≠ 0 then f3.drop offset else f3
  match limit with
  | some n => if n ≠ 0 then f4.take n else f4
  | none => f4

/-- The filter pipeline as the specification words it: dueDate, then
status, then category, then pagination (offset before limit), each
narrowing the previous result, absent options as no-ops, all time
comparisons against the single `now`. -/
def spec_filter_tasks (tasks : List Task) (due_date : Option DueOpt)
    (status : Option StatusOpt) (category : Option String)
    (limit : Option Nat) (offset : Nat) (now : DateTime) : List Task :=
  let f1 : List Task := match due_date with
    | some .today => tasks.filter (fun t => t.due_date.date == now.date)
    | some .tomorrow => tasks.filter (fun t => t.due_date.date == succDay now.date)
    | none => tasks
  let f2 : List Task := match status with
    | some .due => f1.filter (fun t => !t.completed && t.due_date.date.leb now.date)
    | some .overdue => f1.filter (fun t => !t.completed && t.due_date.ltb now)
    | some .completed => f1.filter (fun t => t.completed)
    | none => f1
  let f3 : List Task := match category with
    | some c => f2.filter (fun t => lowerStr t.category == lowerStr c)
    | none => f2
  let f4 : List Task := f3.drop offset
  match limit with
  | some n => f4.take n
  | none => f4

/-! ## Persistence store with read cache (`load_tasks`, lines 210–242)

The backing document is a list of records; each record either parses
into a valid `Task` (`some t`) or fails validation and is skipped with a
log line (`none`).  `none` at the storage level means the backing file
does not exist. -/

/-- Parse the backing document record-by-record, skipping invalid ones. -/
def parseRecords (items : List (Option Task)) : List Task :=
  items.filterMap id

/-- `CACHE_EXPIRATION = 10` seconds. -/
def CACHE_EXPIRATION : Int := 10

/-- The module-level `task_cache = {"data": None, "expires_at": 0}`. -/
structure Cache where
  data : Option (List Task)
  expires_at : Int
deriving DecidableEq, Repr

/-- Result of one `load_tasks()` call: the returned collection, the cache
afterwards, and whether the backing storage was touched. -/
structure LoadResult where
  tasks : List Task
  cache : Cache
  readStorage : Bool
deriving DecidableEq, Repr

/-- The cache-miss path of `load_tasks`: read the file if it exists,
parse records, cache the result with a fresh expiry; a missing file
returns `[]` without touching the cache. -/
def load_from_storage (storage : Option (List (Option Task))) (cache : Cache)
    (current_time : Int) : LoadResult :=
  match storage with
  | some items =>
    let tasks := parseRecords items
    ⟨tasks, ⟨some tasks, current_time + CACHE_EXPIRATION⟩, true⟩
  | none => ⟨[], cache, true⟩

/-- `load_tasks` (lines 210–242).  The guard
`if task_cache["data"] and current_time < task_cache["expires_at"]`
treats both `None` and the empty list as falsy. -/
def load_tasks (storage : Option (List (Option Task))) (cache : Cache)
    (current_time : Int) : LoadResult :=
  match cache.data with
  | some l =>
    if l ≠ [] ∧ current_time < cache.expires_at then ⟨l, cache, false⟩
    else load_from_storage storage cache current_time
  | none => load_from_storage storage cache current_time

/-- The cache written only by loads from this storage: whatever it holds
is the parse of the current backing document.  This is the reachable-state
invariant under "no intervening save, unchanged storage". -/
def CacheConsistent (storage : Option (List (Option Task))) (c : Cache) : Prop :=
  ∀ l, c.data = some l → l = parseRecords (storage.getD [])

/-! ## Reference-level persistence store (for aliasing behaviour)

Python lists are heap objects handled by reference: `load_tasks` returns
`task_cache["data"]` itself (or the freshly parsed list it just cached),
not a copy.  To state aliasing claims, the same `load_tasks` code is
embedded once more over an explicit heap of list objects: a reference is
an index into the heap, and an in-place mutation of a list object
rewrites the heap cell every reference to it sees. -/

/-- A heap of list objects plus the cache slot, which holds a reference. -/
structure Store where
  heap : List (List Task)
  cacheRef : Option Nat
  expires_at : Int
deriving DecidableEq, Repr

/-- Follow a reference to the list object it denotes. -/
def Store.deref (st : Store) (r : Nat) : List Task :=
  st.heap.getD r []

/-- Result of one reference-level `load_tasks()` call. -/
structure RefLoadResult where
  ref : Nat
  store : Store
  readStorage : Bool
deriving DecidableEq, Repr

/-- Cache-miss path at the reference level: parsing allocates a new list
object which is stored in the cache slot and returned; a missing file
allocates a fresh `[]` and leaves the cache untouched. -/
def load_ref_from_storage (storage : Option (List (Option Task))) (st : Store)
    (current_time : Int) : RefLoadResult :=
  match storage with
  | some items =>
    let tasks := parseRecords items
    let r := st.heap.length
    ⟨r, ⟨st.heap ++ [tasks], some r, current_time + CACHE_EXPIRATION⟩, true⟩
  | none =>
    ⟨st.heap.length, ⟨st.heap ++ [[]], st.cacheRef, st.expires_at⟩, true⟩

/-- `load_tasks` at the reference level: a cache hit returns the cached
reference itself — the caller and the cache now alias one object. -/
def load_tasks_ref (storage : Option (List (Option Task))) (st : Store)
    (current_time : Int) : RefLoadResult :=
  match st.cacheRef with
  | some r =>
    if st.deref r ≠ [] ∧ current_time < st.expires_at then ⟨r, st, false⟩
    else load_ref_from_storage storage st current_time
  | none => load_ref_from_storage storage st current_time

/-- An in-place mutation of the list object behind reference `r`
(e.g. `lst.append(...)`, `lst[i] = ...`), visible through every alias. -/
def mutateRef (st : Store) (r : Nat) (f : List Task → List Task) : Store :=
  ⟨st.heap.set r (f (st.heap.getD r [])), st.cacheRef, st.expires_at⟩

/-! ## Task mutation endpoints (`create_task`, `update_task`,
`complete_task`, lines 418–556)

`uuid.uuid4()` draws are passed in explicitly as fresh-identifier
arguments; `datetime.now(timezone.utc)` is passed in as `now`. -/

/-- `TaskCreate` payload (lines 117–123). -/
structure TaskCreate where
  description : String
  category : String := "general"
  due_date : DateTime
  frequency : Option Frequency := none
  reminders : List Reminder := []
deriving DecidableEq, Repr

/-- `TaskUpdate` payload (lines 126–132). -/
structure TaskUpdate where
  description : Option String := none
  category : Option String := none
  due_date : Option DateTime := none
  frequency : Option Frequency := none
  reminders : Option (List Reminder) := none
deriving DecidableEq, Repr

/-- `create_task` (lines 418–447): build the task, then set
`next_due_date` iff a frequency is supplied (a `Frequency` instance is
always truthy). -/
def create_task (data : TaskCreate) (new_id : String) (now : DateTime) : Task :=
  let t : Task :=
    { id := new_id, description := data.description,
      category := data.category, due_date := data.due_date,
      frequency := data.frequency, reminders := data.reminders,
      created_at := now, updated_at := now }
  match data.frequency with
  | some f => { t with next_due_date := some (calculate_next_due_date t.due_date f) }
  | none => t

/-- The field-update block of `update_task` (lines 467–485): each
supplied field overwrites the task's; supplying a frequency recalculates
`next_due_date` from the (possibly just-updated) `due_date`; finally
`updated_at` is refreshed. -/
def apply_update (task : Task) (u : TaskUpdate) (now : DateTime) : Task :=
  let t1 := match u.description with
    | some d => { task with description := d }
    | none => task
  let t2 := match u.category with
    | some c => { t1 with category := c }
    | none => t1
  let t3 := match u.due_date with
    | some d => { t2 with due_date := d }
    | none => t2
  let t4 := match u.frequency with
    | some f =>
      { t3 with frequency := some f,
                next_due_date := some (calculate_next_due_date t3.due_date f) }
    | none => t3
  let t5 := match u.reminders with
    | some r => { t4 with reminders := r }
    | none => t4
  { t5 with updated_at := now }

/-- Find the first task with the given id and replace it by `g` of it;
`none` models the 404 branch.  This is the find-index-then-mutate shape
shared by `update_task` and `complete_task`. -/
def replace_first (tasks : List Task) (task_id : String) (g : Task → Task) :
    Option (List Task × Task) :=
  match tasks with
  | [] => none
  | t :: rest =>
    if t.id == task_id then some (g t :: rest, g t)
    else match replace_first rest task_id g with
      | some (l, t') => some (t :: l, t')
      | none => none

/-- `update_task` (lines 450–497) on the loaded collection. -/
def update_task (tasks : List Task) (task_id : String) (u : TaskUpdate)
    (now : DateTime) : Option (List Task × Task) :=
  replace_first tasks task_id (fun t => apply_update t u now)

/-- Lines 519–521: mark completed, set `completed_at`, refresh
`updated_at`. -/
def mark_completed (t : Task) (now : DateTime) : Task :=
  { t with completed := true, completed_at := some now, updated_at := now }

/-- Lines 526–541: the rescheduled successor task.  Each list
comprehension iteration calls `Reminder(time_before=…, message=…)`,
drawing a fresh uuid for `id` and defaulting `sent` to `False`; the
fresh ids are supplied in `rids`. -/
def make_recurring (t : Task) (f : Frequency) (now : DateTime)
    (new_id : String) (rids : List String) : Task :=
  let next_due := calculate_next_due_date t.due_date f
  { id := new_id, description := t.description, category := t.category,
    due_date := next_due, completed := false, completed_at := none,
    frequency := some f,
    next_due_date := some (calculate_next_due_date next_due f),
    reminders := List.zipWith
      (fun rid r => { id := rid, time_before := r.time_before,
                      message := r.message, sent := false })
      rids t.reminders,
    created_at := now, updated_at := now }

/-- `complete_task` (lines 500–556): mark the found task completed, and
iff `auto_reschedule` and a frequency is present append exactly one
rescheduled successor. -/
def complete_task (tasks : List Task) (task_id : String)
    (auto_reschedule : Bool) (now : DateTime) (new_id : String)
    (rids : List String) : Option (List Task) :=
  match replace_first tasks task_id (fun t => mark_completed t now) with
  | none => none
  | some (l, t') =>
    match auto_reschedule, t'.frequency with
    | true, some f => some (l ++ [make_recurring t' f now new_id rids])
    | _, _ => some l

/-! ## Bulk import (`import_tasks`, lines 559–629) -/

/-- One entry of the uploaded array: whether the record carries an `id`
key, and the outcome of `Task(**item)` (error message on failure). -/
structure RawItem where
  hasId : Option String
  parsed : Except String Task

/-- Line 599–600: fill in `next_due_date` when a frequency is present
and `next_due_date` is falsy (`None`). -/
def fill_next_due (task : Task) : Task :=
  match task.frequency, task.next_due_date with
  | some f, none =>
    { task with next_due_date := some (calculate_next_due_date task.due_date f) }
  | _, _ => task

/-- Running state of the import loop (lines 582–585). -/
structure ImportState where
  tasks : List Task
  ids : List String
  success_count : Nat
  skipped_count : Nat
  invalid_count : Nat
  errors : List String

/-- One iteration of the import loop (lines 587–608): a duplicate id is
skipped before parsing; a failed parse counts invalid and records an
error; a success appends the task and registers its id. -/
def import_step (st : ImportState) (idx : Nat) (item : RawItem) : ImportState :=
  let dup : Bool := match item.hasId with
    | some i => st.ids.contains i
    | none => false
  if dup then { st with skipped_count := st.skipped_count + 1 }
  else match item.parsed with
    | .ok task =>
      let task := fill_next_due task
      { st with tasks := st.tasks ++ [task], ids := st.ids ++ [task.id],
                success_count := st.success_count + 1 }
    | .error e =>
      { st with invalid_count := st.invalid_count + 1,
                errors := st.errors ++ ["Item " ++ toString (idx + 1) ++ ": " ++ e] }

/-- `for i, item in enumerate(import_data)` over the loop body. -/
def run_import (st : ImportState) (idx : Nat) : List RawItem → ImportState
  | [] => st
  | item :: rest => run_import (import_step st idx item) (idx + 1) rest

/-- `ImportSummary` response model (lines 140–145). -/
structure ImportSummary where
  success_count : Nat
  skipped_count : Nat
  invalid_count : Nat
  errors : List String
deriving DecidableEq, Repr

/-- `import_tasks` (lines 559–629): run the loop over the uploaded
entries against the loaded collection, cap the error list at 10, and
persist iff at least one entry succeeded.  Returns the summary, the
resulting collection, and the persisted flag. -/
def import_tasks (existing_tasks : List Task) (items : List RawItem) :
    ImportSummary × List Task × Bool :=
  let st := run_import
    ⟨existing_tasks, existing_tasks.map (fun t => t.id), 0, 0, 0, []⟩ 0 items
  (⟨st.success_count, st.skipped_count, st.invalid_count, st.errors.take 10⟩,
   st.tasks,
   decide (0 < st.success_count))

/-! ## Concrete sample values (used in counterexamples and witnesses) -/

/-- Thursday, 2024-10-10, 09:00 UTC. -/
def sampleDT : DateTime := ⟨⟨2024, 10, 10⟩, 540⟩

/-- A sample stored task. -/
def taskA : Task :=
  { id := "t1", description := "water plants", due_date := sampleDT,
    created_at := sampleDT, updated_at := sampleDT }

/-- A second sample stored task. -/
def taskB : Task :=
  { taskA with id := "t2", description := "buy milk" }

/-- A daily frequency with interval 1. -/
def dailyFreq : Frequency := ⟨.daily, 1, none, none⟩

/-- A recurring daily task whose `next_due_date` is consistent. -/
def taskR : Task :=
  { id := "r1", description := "stretch", due_date := sampleDT,
    frequency := some dailyFreq,
    next_due_date := some (calculate_next_due_date sampleDT dailyFreq),
    created_at := sampleDT, updated_at := sampleDT }

/-- An update that changes only `due_date` (to 2024-10-20). -/
def updOnlyDue : TaskUpdate := { due_date := some ⟨⟨2024, 10, 20⟩, 540⟩ }

/-- `taskR` after `updOnlyDue`. -/
def taskRUpdated : Task := apply_update taskR updOnlyDue sampleDT

/-- A sample reminder, already sent. -/
def remA : Reminder := ⟨"ra", 30, some "time to stretch", true⟩

/-- A recurring task carrying one sent reminder. -/
def taskC : Task :=
  { taskA with frequency := some dailyFreq, reminders := [remA] }

/-- A sample `TaskCreate` payload carrying a frequency. -/
def createData : TaskCreate :=
  { description := "call home", due_date := sampleDT,
    frequency := some dailyFreq }

/-- Import upload: five records — two duplicating the existing ids `t1`
and `t2`, one malformed, two fresh. -/
def importItems5 : List RawItem :=
  [⟨some "t1", .ok taskA⟩,
   ⟨some "n1", .ok { taskA with id := "n1" }⟩,
   ⟨none, .error "bad"⟩,
   ⟨some "t2", .ok taskB⟩,
   ⟨some "n2", .ok { taskA with id := "n2" }⟩]

/-- The initial store: empty heap, no cached reference. -/
def store0 : Store := ⟨[], none, 0⟩

/-- A backing document holding exactly `taskA`. -/
def storageA : Option (List (Option Task)) := some [some taskA]

/-- First reference-level load, at `t = 0`. -/
def load1 : RefLoadResult := load_tasks_ref storageA store0 0

/-- The caller appends `taskB` in place through the returned reference. -/
def storeMut : Store := mutateRef load1.store load1.ref (fun ls => ls ++ [taskB])

/-- Second load, 5 seconds later, after the in-place mutation. -/
def load2 : RefLoadResult := load_tasks_ref storageA storeMut 5

/-- Second load, 5 seconds later, had the caller not mutated. -/
def load2NoMut : RefLoadResult := load_tasks_ref storageA load1.store 5

/-! # Theorems -/

/-! ## Shared helper lemmas -/

theorem replace_first_apply (g : Task → Task) :
    ∀ {tasks : List Task} {tid : String} {l : List Task} {t' : Task},
      replace_first tasks tid g = some (l, t') → ∃ t, t' = g t := by
  intro tasks
  induction tasks with
  | nil => intro tid l t' h; simp [replace_first] at h
  | cons a rest ih =>
    intro tid l t' h
    simp only [replace_first] at h
    by_cases ha : (a.id == tid) = true
    · rw [if_pos ha] at h
      simp only [Option.some.injEq, Prod.mk.injEq] at h
      exact ⟨a, h.2.symm⟩
    · rw [if_neg ha] at h
      cases hrec : replace_first rest tid g with
      | none => rw [hrec] at h; simp at h
      | some p =>
        obtain ⟨l0, t0⟩ := p
        rw [hrec] at h
        simp only [Option.some.injEq, Prod.mk.injEq] at h
        obtain ⟨t, ht⟩ := ih hrec
        exact ⟨t, h.2 ▸ ht⟩

/-! ## C2 — description sanitization versus length/emptiness checks

In the code the pydantic field constraints (`min_length=1`,
`max_length=500`) run on the *raw* value before the sanitizing
validator, and the validator's result — possibly empty — is accepted
unchecked.  The claim (sanitize first, then judge emptiness/length on
the sanitized value) is therefore false: a raw `" "` passes
`min_length=1`, sanitizes to the empty string, and construction
succeeds with an empty description. -/

/-- C2 counterexample: the raw description `" "` is accepted although it
is empty after sanitization, refuting "validation succeeds only if the
sanitized description is non-empty". -/
theorem c2_counterexample :
    validate_description " " = Except.ok "" ∧ sanitize_value " " = "" := by
  constructor <;> rfl

/-- C2 (amended): constructing a Task fails when the *raw* description is
empty or longer than 500 characters — the length and emptiness checks are
judged on the raw value, *before* sanitization — and on any raw value
within bounds, validation succeeds and returns the sanitized value, even
when that value is empty. -/
theorem c2_sanitize_after_length_checks :
    (∀ raw : String, 1 ≤ raw.length → raw.length ≤ 500 →
      validate_description raw = Except.ok (sanitize_value raw))
    ∧ validate_description "" =
        Except.error "ensure this value has at least 1 characters"
    ∧ (∀ raw : String, 500 < raw.length →
      validate_description raw =
        Except.error "ensure this value has at most 500 characters") := by
  refine ⟨?_, rfl, ?_⟩
  · intro raw h1 h2
    have hne : raw ≠ "" := by
      intro hcontra
      rw [hcontra] at h1
      simp at h1
    unfold validate_description sanitize_description
    rw [if_neg (by omega), if_neg (by omega), if_neg hne]
  · intro raw h
    unfold validate_description
    rw [if_neg (by omega), if_pos (by omega)]

/-- C2 witness: the amended theorem evaluated at the in-bounds raw
description `"hello"`. -/
theorem c2_witness :
    validate_description "hello" = Except.ok (sanitize_value "hello") :=
  c2_sanitize_after_length_checks.1 "hello" (by decide) (by decide)

/-! ## C1 — `next_due_date` consistency after create/update

`update_task` recalculates `next_due_date` only inside the
`if task_update.frequency is not None:` block; an update that changes
only `due_date` leaves `next_due_date` stale, so the claimed invariant
fails. -/

/-- C1 counterexample: updating only `due_date` of a daily recurring
task leaves `next_due_date` at its old value, inconsistent with
`recurrence(due_date, frequency)`. -/
theorem c1_counterexample :
    update_task [taskR] "r1" updOnlyDue sampleDT = some ([taskRUpdated], taskRUpdated)
    ∧ taskRUpdated.frequency = some dailyFreq
    ∧ taskRUpdated.due_date = ⟨⟨2024, 10, 20⟩, 540⟩
    ∧ taskRUpdated.next_due_date = some ⟨⟨2024, 10, 11⟩, 540⟩
    ∧ calculate_next_due_date taskRUpdated.due_date dailyFreq = ⟨⟨2024, 10, 21⟩, 540⟩
    ∧ taskRUpdated.next_due_date ≠
        some (calculate_next_due_date taskRUpdated.due_date dailyFreq) := by
  refine ⟨rfl, rfl, rfl, rfl, rfl, ?_⟩
  decide

/-- C1 (amended): `next_due_date` equals
`recurrence(due_date, frequency)` after `create_task` whenever a
frequency is supplied, and after `update_task` whenever the update
*supplies a frequency* (the recalculation then uses the possibly-updated
`due_date`); an update supplying no frequency — in particular one
changing only `due_date` — leaves `next_due_date` unchanged. -/
theorem c1_next_due_recalc_on_frequency_only :
    (∀ (data : TaskCreate) (new_id : String) (now : DateTime) (f : Frequency),
      data.frequency = some f →
        (create_task data new_id now).next_due_date =
          some (calculate_next_due_date data.due_date f)
        ∧ (create_task data new_id now).due_date = data.due_date)
    ∧ (∀ (task : Task) (u : TaskUpdate) (now : DateTime) (f : Frequency),
      u.frequency = some f →
        (apply_update task u now).next_due_date =
          some (calculate_next_due_date (apply_update task u now).due_date f))
    ∧ (∀ (task : Task) (u : TaskUpdate) (now : DateTime),
      u.frequency = none →
        (apply_update task u now).next_due_date = task.next_due_date)
    ∧ (∀ (tasks : List Task) (tid : String) (u : TaskUpdate) (now : DateTime)
        (l : List Task) (t' : Task) (f : Frequency),
      update_task tasks tid u now = some (l, t') → u.frequency = some f →
        t'.next_due_date = some (calculate_next_due_date t'.due_date f)) := by
  have hupd : ∀ (task : Task) (u : TaskUpdate) (now : DateTime) (f : Frequency),
      u.frequency = some f →
        (apply_update task u now).next_due_date =
          some (calculate_next_due_date (apply_update task u now).due_date f) := by
    intro task u now f hf
    simp only [apply_update, hf]
    cases u.description <;> cases u.category <;> cases u.due_date <;>
      cases u.reminders <;> simp
  refine ⟨?_, hupd, ?_, ?_⟩
  · intro data nid now f hf
    simp [create_task, hf]
  · intro task u now hf
    simp only [apply_update, hf]
    cases u.description <;> cases u.category <;> cases u.due_date <;>
      cases u.reminders <;> simp
  · intro tasks tid u now l t' f hupd_eq hf
    obtain ⟨t, ht⟩ := replace_first_apply (fun t => apply_update t u now) hupd_eq
    subst ht
    exact hupd t u now f hf

/-- C1 witness: the amended theorem's create clause at a concrete
payload carrying a daily frequency. -/
theorem c1_witness :
    (create_task createData "c1" sampleDT).next_due_date =
      some (calculate_next_due_date createData.due_date dailyFreq)
    ∧ (create_task createData "c1" sampleDT).due_date = createData.due_date :=
  c1_next_due_recalc_on_frequency_only.1 createData "c1" sampleDT dailyFreq rfl

/-! ## C4 — weekly recurrence with `days_of_week` -/

theorem find_gt_min :
    ∀ {s : List Nat}, s.Sorted (· ≤ ·) → ∀ {cw m : Nat},
      s.find? (fun d => cw < d) = some m → ∀ x ∈ s, cw < x → m ≤ x := by
  intro s
  induction s with
  | nil => intro _ cw m h; simp at h
  | cons a rest ih =>
    intro hs cw m h x hx hcx
    by_cases ha : cw < a
    · rw [List.find?_cons_of_pos _ (by simpa using ha)] at h
      injection h with h
      subst h
      rcases List.mem_cons.mp hx with rfl | hxr
      · exact le_refl _
      · exact (List.sorted_cons.mp hs).1 x hxr
    · rw [List.find?_cons_of_neg _ (by simpa using ha)] at h
      rcases List.mem_cons.mp hx with rfl | hxr
      · exact absurd hcx ha
      · exact ih (List.sorted_cons.mp hs).2 h x hxr hcx

theorem sorted_headD_min {s : List Nat} (hs : s.Sorted (· ≤ ·)) (hne : s ≠ []) :
    s.headD 0 ∈ s ∧ ∀ x ∈ s, s.headD 0 ≤ x := by
  cases s with
  | nil => exact absurd rfl hne
  | cons a rest =>
    refine ⟨List.mem_cons_self _ _, ?_⟩
    intro x hx
    rcases List.mem_cons.mp hx with rfl | hxr
    · exact le_refl _
    · exact (List.sorted_cons.mp hs).1 x hxr

/-- C4 (confirmed): with a non-empty `days_of_week`, the weekly branch
advances to the smallest target weekday strictly greater than the current
weekday when one exists, and otherwise `(7 - currentWeekday) + firstTarget`
days to the smallest target of the following week; `interval` has no
effect in this branch; and from Thursday 2024-10-10 with targets
`[2, 4]` (Wed, Fri) the result is Friday 2024-10-11, one day ahead. -/
theorem c4_weekly_days_of_week (dt : DateTime) (l : List Nat) (n : Nat)
    (dom : Option Nat) (hne : l ≠ []) :
    ((∃ x ∈ l, weekday dt.date < x) →
      ∃ m ∈ l, weekday dt.date < m ∧ (∀ x ∈ l, weekday dt.date < x → m ≤ x) ∧
        calculate_next_due_date dt ⟨.weekly, n, some l, dom⟩ =
          ⟨addDays dt.date (m - weekday dt.date), dt.minute⟩)
    ∧ ((∀ x ∈ l, x ≤ weekday dt.date) →
      ∃ m ∈ l, (∀ x ∈ l, m ≤ x) ∧
        calculate_next_due_date dt ⟨.weekly, n, some l, dom⟩ =
          ⟨addDays dt.date ((7 - weekday dt.date) + m), dt.minute⟩)
    ∧ (∀ n' : Nat, calculate_next_due_date dt ⟨.weekly, n, some l, dom⟩ =
        calculate_next_due_date dt ⟨.weekly, n', some l, dom⟩)
    ∧ calculate_next_due_date ⟨⟨2024, 10, 10⟩, 0⟩ ⟨.weekly, 1, some [2, 4], none⟩ =
        ⟨⟨2024, 10, 11⟩, 0⟩
    ∧ weekday ⟨2024, 10, 10⟩ = 3 ∧ weekday ⟨2024, 10, 11⟩ = 4
    ∧ addDays ⟨2024, 10, 10⟩ 1 = ⟨2024, 10, 11⟩ := by
  have hsorted : List.Sorted (· ≤ ·) (List.insertionSort (· ≤ ·) l) :=
    List.sorted_insertionSort _ l
  have hperm : List.Perm (List.insertionSort (· ≤ ·) l) l := List.perm_insertionSort _ l
  have hmem : ∀ x, x ∈ List.insertionSort (· ≤ ·) l ↔ x ∈ l :=
    fun x => hperm.mem_iff
  have hcalc : ∀ m : Nat, calculate_next_due_date dt ⟨.weekly, m, some l, dom⟩ =
      ⟨addDays dt.date
        (match (List.insertionSort (· ≤ ·) l).find?
            (fun d => weekday dt.date < d) with
          | some next_day => next_day - weekday dt.date
          | none => (7 - weekday dt.date) + (List.insertionSort (· ≤ ·) l).headD 0),
        dt.minute⟩ := by
    intro m
    simp only [calculate_next_due_date]
    rw [if_pos hne]
  refine ⟨?_, ?_, ?_, by decide, by decide, by decide, by decide⟩
  · rintro ⟨x, hxl, hcwx⟩
    cases hf : (List.insertionSort (· ≤ ·) l).find? (fun d => weekday dt.date < d) with
    | none =>
      exfalso
      exact (List.find?_eq_none.mp hf x ((hmem x).mpr hxl)) (by simpa using hcwx)
    | some m =>
      have hm_mem : m ∈ l := (hmem m).mp (List.mem_of_find?_eq_some hf)
      have hcwm : weekday dt.date < m := by simpa using List.find?_some hf
      refine ⟨m, hm_mem, hcwm, ?_, ?_⟩
      · intro y hy hcwy
        exact find_gt_min hsorted hf y ((hmem y).mpr hy) hcwy
      · rw [hcalc n, hf]
  · intro hall
    have hf : (List.insertionSort (· ≤ ·) l).find? (fun d => weekday dt.date < d)
        = none := by
      rw [List.find?_eq_none]
      intro x hx
      simpa using Nat.not_lt.mpr (hall x ((hmem x).mp hx))
    have hsne : List.insertionSort (· ≤ ·) l ≠ [] := by
      intro hcontra
      exact hne ((hcontra ▸ hperm).symm.eq_nil)
    obtain ⟨hhead_mem, hhead_min⟩ := sorted_headD_min hsorted hsne
    refine ⟨(List.insertionSort (· ≤ ·) l).headD 0, (hmem _).mp hhead_mem, ?_, ?_⟩
    · intro y hy
      exact hhead_min y ((hmem y).mpr hy)
    · rw [hcalc n, hf]
  · intro n'
    rw [hcalc n, hcalc n']

/-- C4 witness: the theorem's interval-irrelevance clause at Thursday
2024-10-10 with targets `[2, 4]`, compared between intervals 1 and 2. -/
theorem c4_witness :
    calculate_next_due_date ⟨⟨2024, 10, 10⟩, 0⟩ ⟨.weekly, 1, some [2, 4], none⟩ =
      calculate_next_due_date ⟨⟨2024, 10, 10⟩, 0⟩ ⟨.weekly, 2, some [2, 4], none⟩ :=
  (c4_weekly_days_of_week ⟨⟨2024, 10, 10⟩, 0⟩ [2, 4] 1 none (by decide)).2.2.1 2

/-! ## C6 — monthly recurrence with `day_of_month` clamping -/

theorem addMonths_month_bounds (d : Date) (n : Nat) :
    1 ≤ (addMonths d n).month ∧ (addMonths d n).month ≤ 12 := by
  simp only [addMonths]
  omega

/-- The code's fallback computation — first day of the month after `u`'s
month, minus one day — lands on the last valid day of `u`'s month. -/
theorem last_day_via_next_month (u : Date) (h1 : 1 ≤ u.month) (h2 : u.month ≤ 12) :
    (predDay ⟨(addMonths u 1).year, (addMonths u 1).month, 1⟩).day =
      daysInMonth u.year u.month := by
  have htot : (u.month - 1) + 1 = u.month := by omega
  by_cases h12 : u.month = 12
  · simp only [addMonths, htot, h12]
    norm_num [predDay, daysInMonth]
  · have hm : u.month % 12 = u.month := Nat.mod_eq_of_lt (by omega)
    have hd : u.month / 12 = 0 := Nat.div_eq_of_lt (by omega)
    simp only [addMonths, htot, hm, hd]
    simp only [predDay]
    rw [if_neg (by omega), if_pos (by omega)]
    simp

/-- C6 (confirmed): the monthly branch adds `interval` calendar months
(calendar-aware, day clamped by the month addition itself); when
`day_of_month` is set the result's day is `day_of_month` if that day
exists in the target month and otherwise the last valid day of the
target month; in particular `day_of_month=31` into 30-day April 2024
yields day 30. -/
theorem c6_monthly_day_clamp (dt : DateTime) (n : Nat) (dw : Option (List Nat)) :
    (∀ dom : Nat, 1 ≤ dom →
      calculate_next_due_date dt ⟨.monthly, n, dw, some dom⟩ =
        ⟨⟨(addMonths dt.date n).year, (addMonths dt.date n).month,
          if dom ≤ daysInMonth (addMonths dt.date n).year (addMonths dt.date n).month
          then dom
          else daysInMonth (addMonths dt.date n).year (addMonths dt.date n).month⟩,
         dt.minute⟩)
    ∧ calculate_next_due_date dt ⟨.monthly, n, dw, none⟩ =
        ⟨addMonths dt.date n, dt.minute⟩
    ∧ calculate_next_due_date ⟨⟨2024, 3, 15⟩, 0⟩ ⟨.monthly, 1, none, some 31⟩ =
        ⟨⟨2024, 4, 30⟩, 0⟩
    ∧ daysInMonth 2024 4 = 30 := by
  refine ⟨?_, rfl, by decide, by decide⟩
  intro dom hdom
  have hb := addMonths_month_bounds dt.date n
  simp only [calculate_next_due_date]
  rw [if_pos (by omega : dom ≠ 0)]
  by_cases hle : dom ≤ daysInMonth (addMonths dt.date n).year (addMonths dt.date n).month
  · rw [if_pos ⟨hdom, hle⟩, if_pos hle]
  · rw [if_neg (fun h => hle h.2), if_neg hle,
      last_day_via_next_month _ hb.1 hb.2]

/-- C6 witness: the theorem's clamping clause at `day_of_month = 31`
landing in April 2024. -/
theorem c6_witness :
    calculate_next_due_date ⟨⟨2024, 3, 15⟩, 0⟩ ⟨.monthly, 1, none, some 31⟩ =
      ⟨⟨(addMonths ⟨2024, 3, 15⟩ 1).year, (addMonths ⟨2024, 3, 15⟩ 1).month,
        if 31 ≤ daysInMonth (addMonths ⟨2024, 3, 15⟩ 1).year
            (addMonths ⟨2024, 3, 15⟩ 1).month
        then 31
        else daysInMonth (addMonths ⟨2024, 3, 15⟩ 1).year
            (addMonths ⟨2024, 3, 15⟩ 1).month⟩,
       0⟩ :=
  (c6_monthly_day_clamp ⟨⟨2024, 3, 15⟩, 0⟩ 1 none).1 31 (by decide)

/-! ## C3 — cache behaviour of consecutive loads -/

theorem load_from_storage_tasks (storage : Option (List (Option Task)))
    (c : Cache) (t : Int) :
    (load_from_storage storage c t).tasks = parseRecords (storage.getD []) := by
  cases storage <;> simp [load_from_storage, parseRecords]

theorem load_from_storage_read (storage : Option (List (Option Task)))
    (c : Cache) (t : Int) :
    (load_from_storage storage c t).readStorage = true := by
  cases storage <;> rfl

/-- C3 counterexample: with the backing file holding an empty array, the
second of two loads 5 seconds apart still reads the backing storage —
`task_cache["data"]` being the empty list is falsy, so the empty
collection is never served from cache, refuting "this holds for every
task collection, including the empty collection". -/
theorem c3_counterexample :
    (load_tasks (some []) (load_tasks (some []) ⟨none, 0⟩ 0).cache 5).readStorage = true
    ∧ (load_tasks (some []) ⟨none, 0⟩ 0).tasks = []
    ∧ (load_tasks (some []) (load_tasks (some []) ⟨none, 0⟩ 0).cache 5).tasks =
        (load_tasks (some []) ⟨none, 0⟩ 0).tasks :=
  ⟨rfl, rfl, rfl⟩

/-- C3 (amended): for two loads inside one 10-second window with no
intervening save and unchanged storage (so the cache, written only by
loads, is consistent with storage), the two calls return identical
collection contents; and whenever the first call read storage and
obtained a *non-empty* collection, the second call does not read storage.
A load that obtained the empty collection bypasses the cache (the empty
list is falsy in the cache guard), so the second call re-reads storage in
that case, though contents still agree. -/
theorem c3_cache_window (storage : Option (List (Option Task))) (c₀ : Cache)
    (t₁ t₂ : Int) (hcons : CacheConsistent storage c₀)
    (h2 : t₂ < t₁ + CACHE_EXPIRATION) :
    (load_tasks storage c₀ t₁).tasks =
      (load_tasks storage (load_tasks storage c₀ t₁).cache t₂).tasks
    ∧ ((load_tasks storage c₀ t₁).readStorage = true →
       (load_tasks storage c₀ t₁).tasks ≠ [] →
       (load_tasks storage (load_tasks storage c₀ t₁).cache t₂).readStorage = false) := by
  have h2' : t₂ < t₁ + 10 := by simpa [CACHE_EXPIRATION] using h2
  cases hd : c₀.data with
  | none =>
    cases hs : storage with
    | none => simp [load_tasks, load_from_storage, hd, hs]
    | some items =>
      by_cases hp : parseRecords items = []
      · simp [load_tasks, load_from_storage, hd, hs, hp]
      · simp [load_tasks, load_from_storage, hd, hs, hp, CACHE_EXPIRATION, h2']
  | some l =>
    have hl : l = parseRecords (storage.getD []) := hcons l hd
    by_cases hhit : l ≠ [] ∧ t₁ < c₀.expires_at
    · refine ⟨?_, ?_⟩
      · by_cases hhit2 : l ≠ [] ∧ t₂ < c₀.expires_at
        · simp [load_tasks, hd, hhit, hhit2]
        · simp only [load_tasks, hd]
          rw [if_pos hhit]
          show l = (load_tasks storage c₀ t₂).tasks
          simp only [load_tasks, hd]
          rw [if_neg hhit2, load_from_storage_tasks, ← hl]
      · intro habs hne
        simp [load_tasks, hd, hhit] at habs
    · cases hs : storage with
      | none =>
        have hl0 : l = [] := by simpa [hs] using hl
        constructor
        · simp [load_tasks, load_from_storage, hd, hs, hhit, hl0]
        · simp [load_tasks, load_from_storage, hd, hs, hhit, hl0]
      | some items =>
        by_cases hp : parseRecords items = []
        · simp [load_tasks, load_from_storage, hd, hs, hhit, hp]
        · simp [load_tasks, load_from_storage, hd, hs, hhit, hp, CACHE_EXPIRATION, h2']

/-- C3 witness: the amended theorem's contents-equality at a one-task
backing document, first load at `t = 0`, second at `t = 5`, from the
initial empty cache. -/
theorem c3_witness :
    (load_tasks (some [some taskA]) ⟨none, 0⟩ 0).tasks =
      (load_tasks (some [some taskA])
        (load_tasks (some [some taskA]) ⟨none, 0⟩ 0).cache 5).tasks :=
  (c3_cache_window (some [some taskA]) ⟨none, 0⟩ 0 5
    (by intro l h; simp at h) (by decide)).1

/-! ## C5 — load returns a live reference, not a snapshot copy -/

theorem getD_concat_length {α : Type} (l : List α) (a d : α) :
    (l ++ [a]).getD l.length d = a := by
  simp [List.getD]

theorem set_concat_length {α : Type} (l : List α) (a b : α) :
    (l ++ [a]).set l.length b = l ++ [b] := by
  induction l with
  | nil => rfl
  | cons x xs ih => simp [List.set, ih]

/-- C5 counterexample: `load_tasks` hands back the cache's own list
object.  After loading `[taskA]` and appending `taskB` in place through
the returned reference, a load 5 seconds later returns `[taskA, taskB]`,
whereas without the mutation it returns `[taskA]` — mutating the
returned collection *does* change what subsequent loads return,
refuting snapshot copy semantics. -/
theorem c5_counterexample :
    load2.store.deref load2.ref = [taskA, taskB]
    ∧ load2.readStorage = false
    ∧ load2NoMut.store.deref load2NoMut.ref = [taskA]
    ∧ ([taskA, taskB] : List Task) ≠ [taskA] := by
  refine ⟨rfl, rfl, rfl, by decide⟩

/-- C5 (amended): a load that reads storage caches the freshly parsed
list object and returns *that same object* (the returned reference is
the cache slot's reference); consequently an in-place mutation of the
returned collection is visible in the contents of any load served from
cache within the 10-second window. -/
theorem c5_load_aliases_cache (items : List (Option Task)) (st₀ : Store)
    (t₁ t₂ : Int) (f : List Task → List Task) (hmiss : st₀.cacheRef = none)
    (hfne : f (parseRecords items) ≠ [])
    (h2 : t₂ < t₁ + CACHE_EXPIRATION) :
    (load_tasks_ref (some items) st₀ t₁).store.cacheRef =
        some (load_tasks_ref (some items) st₀ t₁).ref
    ∧ (load_tasks_ref (some items)
        (mutateRef (load_tasks_ref (some items) st₀ t₁).store
          (load_tasks_ref (some items) st₀ t₁).ref f) t₂).store.deref
      (load_tasks_ref (some items)
        (mutateRef (load_tasks_ref (some items) st₀ t₁).store
          (load_tasks_ref (some items) st₀ t₁).ref f) t₂).ref
      = f (parseRecords items) := by
  have h1 : load_tasks_ref (some items) st₀ t₁ =
      ⟨st₀.heap.length,
       ⟨st₀.heap ++ [parseRecords items], some st₀.heap.length,
        t₁ + CACHE_EXPIRATION⟩, true⟩ := by
    simp [load_tasks_ref, load_ref_from_storage, hmiss]
  rw [h1]
  refine ⟨rfl, ?_⟩
  have hmut : mutateRef
      (⟨st₀.heap ++ [parseRecords items], some st₀.heap.length,
        t₁ + CACHE_EXPIRATION⟩ : Store) st₀.heap.length f =
      ⟨st₀.heap ++ [f (parseRecords items)], some st₀.heap.length,
       t₁ + CACHE_EXPIRATION⟩ := by
    simp [mutateRef, getD_concat_length, set_concat_length]
  rw [hmut]
  have hhit : load_tasks_ref (some items)
      (⟨st₀.heap ++ [f (parseRecords items)], some st₀.heap.length,
        t₁ + CACHE_EXPIRATION⟩ : Store) t₂ =
      ⟨st₀.heap.length,
       ⟨st₀.heap ++ [f (parseRecords items)], some st₀.heap.length,
        t₁ + CACHE_EXPIRATION⟩, false⟩ := by
    simp [load_tasks_ref, Store.deref, getD_concat_length, hfne, h2]
  rw [hhit]
  simp [Store.deref, getD_concat_length]

/-- C5 witness: the amended theorem at the concrete one-task document
with an in-place append through the returned reference. -/
theorem c5_witness :
    (load_tasks_ref (some [some taskA]) store0 0).store.cacheRef =
        some (load_tasks_ref (some [some taskA]) store0 0).ref
    ∧ (load_tasks_ref (some [some taskA])
        (mutateRef (load_tasks_ref (some [some taskA]) store0 0).store
          (load_tasks_ref (some [some taskA]) store0 0).ref
          (fun ls => ls ++ [taskB])) 5).store.deref
      (load_tasks_ref (some [some taskA])
        (mutateRef (load_tasks_ref (some [some taskA]) store0 0).store
          (load_tasks_ref (some [some taskA]) store0 0).ref
          (fun ls => ls ++ [taskB])) 5).ref
      = (fun ls => ls ++ [taskB]) (parseRecords [some taskA]) :=
  c5_load_aliases_cache [some taskA] store0 0 5 (fun ls => ls ++ [taskB])
    rfl (by decide) (by decide)

/-! ## C7 — bulk import outcomes -/

theorem import_step_counts (st : ImportState) (idx : Nat) (item : RawItem) :
    (import_step st idx item).success_count + (import_step st idx item).skipped_count
      + (import_step st idx item).invalid_count
    = st.success_count + st.skipped_count + st.invalid_count + 1 := by
  simp only [import_step]
  cases hh : item.hasId with
  | none => cases hp : item.parsed <;> simp <;> omega
  | some i =>
    by_cases hc : i ∈ st.ids
    · simp [hc]
      omega
    · cases hp : item.parsed <;> simp [hc] <;> omega

theorem run_import_counts :
    ∀ (items : List RawItem) (st : ImportState) (idx : Nat),
      (run_import st idx items).success_count
        + (run_import st idx items).skipped_count
        + (run_import st idx items).invalid_count
      = st.success_count + st.skipped_count + st.invalid_count + items.length := by
  intro items
  induction items with
  | nil => intro st idx; simp [run_import]
  | cons item rest ih =>
    intro st idx
    have h1 := ih (import_step st idx item) (idx + 1)
    have h2 := import_step_counts st idx item
    simp only [run_import, List.length_cons]
    omega

/-- C7 (confirmed): the import loop classifies every uploaded entry as
exactly one of success / skipped (duplicate id) / invalid (failed
validation), so the three counters partition the upload; at most 10
error messages are returned; the collection is persisted iff at least
one entry succeeded; and the 5-record example (2 duplicates of existing
ids, 1 malformed, 2 fresh) yields counts (2, 2, 1). -/
theorem c7_import_summary (existing : List Task) (items : List RawItem) :
    ((import_tasks existing items).1.success_count
      + (import_tasks existing items).1.skipped_count
      + (import_tasks existing items).1.invalid_count = items.length)
    ∧ (import_tasks existing items).1.errors.length ≤ 10
    ∧ ((import_tasks existing items).2.2 = true ↔
        0 < (import_tasks existing items).1.success_count)
    ∧ (import_tasks [taskA, taskB] importItems5).1 =
        ⟨2, 2, 1, ["Item 3: bad"]⟩ := by
  refine ⟨?_, ?_, ?_, by decide⟩
  · have h := run_import_counts items
      ⟨existing, existing.map (fun t => t.id), 0, 0, 0, []⟩ 0
    simpa [import_tasks] using h
  · simp [import_tasks, List.length_take]
  · simp [import_tasks]

/-! ## C8 — filter pipeline order and semantics -/

/-- C8 (confirmed): `filter_tasks` equals the specification's pipeline —
dueDate, then status, then category, then pagination with offset before
limit, absent options no-ops, all comparisons against the single `now` —
for every option combination actually expressible through the query
interface (`limit ≥ 1`, category absent or non-empty); and each status
filter keeps exactly the tasks the specification describes. -/
theorem c8_filter_pipeline (tasks : List Task) (due_date : Option DueOpt)
    (status : Option StatusOpt) (category : Option String) (limit : Option Nat)
    (offset : Nat) (now : DateTime)
    (hcat : category ≠ some "") (hlim : limit ≠ some 0) :
    filter_tasks tasks due_date status category limit offset now =
      spec_filter_tasks tasks due_date status category limit offset now
    ∧ (∀ (l : List Task) (t : Task),
        t ∈ l.filter (fun t => !t.completed && t.due_date.date.leb now.date) ↔
          t ∈ l ∧ t.completed = false ∧ t.due_date.date.leb now.date = true)
    ∧ (∀ (l : List Task) (t : Task),
        t ∈ l.filter (fun t => !t.completed && t.due_date.ltb now) ↔
          t ∈ l ∧ t.completed = false ∧ t.due_date.ltb now = true)
    ∧ (∀ (l : List Task) (t : Task),
        t ∈ l.filter (fun t => t.completed) ↔ t ∈ l ∧ t.completed = true) := by
  refine ⟨?_, ?_, ?_, ?_⟩
  · cases category with
    | none =>
      cases limit with
      | none =>
        by_cases ho : offset = 0 <;> simp [filter_tasks, spec_filter_tasks, ho]
      | some n =>
        have hn : n ≠ 0 := fun h => hlim (by rw [h])
        by_cases ho : offset = 0 <;>
          simp [filter_tasks, spec_filter_tasks, ho, hn]
    | some c =>
      have hc : c ≠ "" := fun h => hcat (by rw [h])
      cases limit with
      | none =>
        by_cases ho : offset = 0 <;>
          simp [filter_tasks, spec_filter_tasks, ho, hc]
      | some n =>
        have hn : n ≠ 0 := fun h => hlim (by rw [h])
        by_cases ho : offset = 0 <;>
          simp [filter_tasks, spec_filter_tasks, ho, hn, hc]
  · intro l t
    simp [List.mem_filter, and_assoc]
  · intro l t
    simp [List.mem_filter, and_assoc]
  · intro l t
    simp [List.mem_filter]

/-- C8 witness: the pipeline equality at a one-task collection with the
`status=due` filter. -/
theorem c8_witness :
    filter_tasks [taskA] none (some .due) none none 0 sampleDT =
      spec_filter_tasks [taskA] none (some .due) none none 0 sampleDT :=
  (c8_filter_pipeline [taskA] none (some .due) none none 0 sampleDT
    (by simp) (by simp)).1

/-! ## C9 / C10 — completion with auto-reschedule -/

theorem find?_replace_first (g : Task → Task) :
    ∀ {tasks : List Task} {tid : String} {t : Task},
      tasks.find? (fun x => x.id == tid) = some t →
      ∃ l, replace_first tasks tid g = some (l, g t)
        ∧ l.length = tasks.length ∧ g t ∈ l := by
  intro tasks
  induction tasks with
  | nil => intro tid t h; simp at h
  | cons a rest ih =>
    intro tid t h
    by_cases ha : (a.id == tid) = true
    · simp only [List.find?_cons, ha] at h
      injection h with h
      subst h
      refine ⟨g a :: rest, ?_, by simp, List.mem_cons_self _ _⟩
      simp [replace_first, ha]
    · have ha' : (a.id == tid) = false := by simpa using ha
      simp only [List.find?_cons, ha'] at h
      obtain ⟨l, hl, hlen, hmem⟩ := ih h
      refine ⟨a :: l, ?_, by simp [hlen], List.mem_cons_of_mem _ hmem⟩
      simp [replace_first, ha, hl]

theorem zipWith_reminder_ids :
    ∀ (rids : List String) (rs : List Reminder), rids.length = rs.length →
      (List.zipWith (fun rid r => Reminder.mk rid r.time_before r.message false)
        rids rs).map (fun r => r.id) = rids := by
  intro rids
  induction rids with
  | nil => intro rs h; simp
  | cons a as ih =>
    intro rs h
    cases rs with
    | nil => simp at h
    | cons b bs => simp [ih bs (by simpa using h)]

theorem zipWith_reminder_payload :
    ∀ (rids : List String) (rs : List Reminder), rids.length = rs.length →
      (List.zipWith (fun rid r => Reminder.mk rid r.time_before r.message false)
        rids rs).map (fun r => (r.time_before, r.message)) =
      rs.map (fun r => (r.time_before, r.message)) := by
  intro rids
  induction rids with
  | nil =>
    intro rs h
    cases rs with
    | nil => rfl
    | cons b bs => simp at h
  | cons a as ih =>
    intro rs h
    cases rs with
    | nil => simp at h
    | cons b bs => simp [ih bs (by simpa using h)]

theorem zipWith_reminder_sent :
    ∀ (rids : List String) (rs : List Reminder),
      ∀ r ∈ List.zipWith (fun rid r => Reminder.mk rid r.time_before r.message false)
        rids rs, r.sent = false := by
  intro rids
  induction rids with
  | nil => intro rs r h; simp at h
  | cons a as ih =>
    intro rs r h
    cases rs with
    | nil => simp at h
    | cons b bs =>
      rw [List.zipWith_cons_cons] at h
      rcases List.mem_cons.mp h with rfl | hr
      · rfl
      · exact ih bs r hr

theorem zipWith_reminder_get_id :
    ∀ (rids : List String) (rs : List Reminder) (i : Nat)
      (hi : i < (List.zipWith
        (fun rid r => Reminder.mk rid r.time_before r.message false)
          rids rs).length)
      (hir : i < rids.length),
      ((List.zipWith (fun rid r => Reminder.mk rid r.time_before r.message false)
        rids rs).get ⟨i, hi⟩).id = rids.get ⟨i, hir⟩ := by
  intro rids
  induction rids with
  | nil => intro rs i hi hir; simp at hir
  | cons a as ih =>
    intro rs i hi hir
    cases rs with
    | nil => simp at hi
    | cons b bs =>
      cases i with
      | zero => rfl
      | succ j => exact ih bs j (by simpa using hi) (by simpa using hir)

/-- C9 (confirmed): completing a found task with `auto_reschedule=true`
and a frequency appends exactly one new task whose `due_date` is
`nextDue` of the original's `due_date`, whose reminders carry the
original `time_before`/`message` with every `sent` flag false, while the
original is marked completed with `completed_at` set; without a
frequency, or with `auto_reschedule=false`, no task is added. -/
theorem c9_complete_reschedule (tasks : List Task) (tid : String) (now : DateTime)
    (nid : String) (rids : List String) (t : Task)
    (hfind : tasks.find? (fun x => x.id == tid) = some t) :
    (∀ f, t.frequency = some f → rids.length = t.reminders.length →
      ∃ l, complete_task tasks tid true now nid rids =
          some (l ++ [make_recurring (mark_completed t now) f now nid rids])
        ∧ l.length = tasks.length
        ∧ mark_completed t now ∈ l
        ∧ (make_recurring (mark_completed t now) f now nid rids).due_date =
            calculate_next_due_date t.due_date f
        ∧ (make_recurring (mark_completed t now) f now nid rids).reminders.map
            (fun r => (r.time_before, r.message)) =
          t.reminders.map (fun r => (r.time_before, r.message))
        ∧ ∀ r ∈ (make_recurring (mark_completed t now) f now nid rids).reminders,
            r.sent = false)
    ∧ (mark_completed t now).completed = true
    ∧ (mark_completed t now).completed_at = some now
    ∧ (t.frequency = none →
        ∃ l, complete_task tasks tid true now nid rids = some l
          ∧ l.length = tasks.length ∧ mark_completed t now ∈ l)
    ∧ (∃ l, complete_task tasks tid false now nid rids = some l
        ∧ l.length = tasks.length ∧ mark_completed t now ∈ l) := by
  obtain ⟨l, hrep, hlen, hmem⟩ :=
    find?_replace_first (fun x => mark_completed x now) hfind
  refine ⟨?_, rfl, rfl, ?_, ?_⟩
  · intro f hf hlenr
    refine ⟨l, ?_, hlen, hmem, rfl, ?_, ?_⟩
    · have hf' : (mark_completed t now).frequency = some f := hf
      simp [complete_task, hrep, hf']
    · exact zipWith_reminder_payload rids t.reminders hlenr
    · exact zipWith_reminder_sent rids t.reminders
  · intro hf
    have hf' : (mark_completed t now).frequency = none := hf
    refine ⟨l, ?_, hlen, hmem⟩
    simp [complete_task, hrep, hf']
  · refine ⟨l, ?_, hlen, hmem⟩
    cases hfq : (mark_completed t now).frequency <;>
      simp [complete_task, hrep, hfq]

/-- C9 witness: the theorem at the one-task collection `[taskC]`,
exhibiting the completed-task facts. -/
theorem c9_witness :
    (mark_completed taskC sampleDT).completed = true
    ∧ (mark_completed taskC sampleDT).completed_at = some sampleDT :=
  ⟨(c9_complete_reschedule [taskC] "t1" sampleDT "n9" ["fr1"] taskC
      (by decide)).2.1,
   (c9_complete_reschedule [taskC] "t1" sampleDT "n9" ["fr1"] taskC
      (by decide)).2.2.1⟩

/-- C10 (confirmed): the rescheduled successor's reminders take their
ids from the freshly drawn uuids — only `time_before` and `message` are
carried over — so whenever the fresh draws avoid the original ids (as
uuid4 draws do), each new reminder's id differs from the corresponding
original reminder's id. -/
theorem c10_fresh_reminder_ids (t : Task) (f : Frequency) (now : DateTime)
    (nid : String) (rids : List String)
    (hlen : rids.length = t.reminders.length)
    (hfresh : ∀ rid ∈ rids, ∀ r ∈ t.reminders, rid ≠ r.id) :
    (make_recurring t f now nid rids).reminders.map (fun r => r.id) = rids
    ∧ (∀ i (hi : i < (make_recurring t f now nid rids).reminders.length)
        (hj : i < t.reminders.length),
        ((make_recurring t f now nid rids).reminders.get ⟨i, hi⟩).id ≠
          (t.reminders.get ⟨i, hj⟩).id)
    ∧ (make_recurring t f now nid rids).reminders.map
        (fun r => (r.time_before, r.message)) =
      t.reminders.map (fun r => (r.time_before, r.message)) := by
  refine ⟨zipWith_reminder_ids rids t.reminders hlen, ?_,
    zipWith_reminder_payload rids t.reminders hlen⟩
  intro i hi hj
  have hir : i < rids.length := by
    simpa [make_recurring, hlen] using hj
  intro heq
  have key := zipWith_reminder_get_id rids t.reminders i hi hir
  have hids : rids.get ⟨i, hir⟩ = (t.reminders.get ⟨i, hj⟩).id := by
    rw [← key]; exact heq
  exact hfresh (rids.get ⟨i, hir⟩) (List.get_mem _ _ _)
    (t.reminders.get ⟨i, hj⟩) (List.get_mem _ _ _) hids

/-- C10 witness: the theorem at `taskC` (one reminder with id `"ra"`)
and the fresh draw `["fr1"]`. -/
theorem c10_witness :
    (make_recurring taskC dailyFreq sampleDT "n9" ["fr1"]).reminders.map
      (fun r => r.id) = ["fr1"]
    ∧ (make_recurring taskC dailyFreq sampleDT "n9" ["fr1"]).reminders.map
      (fun r => (r.time_before, r.message)) =
      taskC.reminders.map (fun r => (r.time_before, r.message)) :=
  ⟨(c10_fresh_reminder_ids taskC dailyFreq sampleDT "n9" ["fr1"]
      (by decide) (by decide)).1,
   (c10_fresh_reminder_ids taskC dailyFreq sampleDT "n9" ["fr1"]
      (by decide) (by decide)).2.2⟩

end TaskManager
